import Mathlib

/-!
Shallow embedding of the Gomoku rule/AI core (GameState, RuleEngine, AIEngine,
MathUtils) of the WebGoFive repository, together with theorems settling the
frozen claims about it.

Boards are `List (List Nat)` (rows of cells, `0` empty, `1` black, `2` white),
indexed as `board[y][x]` like the JavaScript source.  Coordinates are `Int`
since the source freely forms out-of-range neighbour coordinates and filters
them with `inBounds`.  In-place mutation in the source (place → inspect →
restore) is embedded by explicit state passing: the mutating entry points are
functions returning the result *and* the final board, so that the
restore-on-every-exit discipline becomes a provable statement.
-/

namespace GoFive

abbrev Board := List (List Nat)

/-- Embeds `MathUtils.inBounds(x, y, size)`: `x >= 0 && y >= 0 && x < size && y < size`. -/
def inBounds (x y : Int) (size : Nat) : Bool :=
  decide (0 ≤ x ∧ 0 ≤ y ∧ x < (size : Int) ∧ y < (size : Int))

/-- Read `board[y][x]`; out-of-range reads yield `0` (all scanning code in the
source guards reads with `inBounds`, so in-range behaviour is identical). -/
def getCell (b : Board) (x y : Int) : Nat :=
  if inBounds x y b.length then (b.getD y.toNat []).getD x.toNat 0 else 0

/-- Write `board[y][x] = v` (no-op out of range, mirroring that the source only
writes to coordinates it has bounds-checked). -/
def setCell (b : Board) (x y : Int) (v : Nat) : Board :=
  if inBounds x y b.length then b.set y.toNat ((b.getD y.toNat []).set x.toNat v) else b

/-- Build an `n × n` board from a cell function (used for concrete test boards). -/
def mkBoard (n : Nat) (f : Nat → Nat → Nat) : Board :=
  (List.range n).map (fun y => (List.range n).map (fun x => f x y))

namespace MathUtils

/-- One scan axis, a unit vector with a display name (`MathUtils.BOARD_DIRECTIONS` entry). -/
structure Dir where
  dx : Int
  dy : Int
  name : String
deriving Repr, DecidableEq

/-- Embeds `MathUtils.BOARD_DIRECTIONS`, in source order. -/
def BOARD_DIRECTIONS : List Dir :=
  [⟨1, 0, "horizontal"⟩, ⟨0, 1, "vertical"⟩, ⟨1, 1, "diagDown"⟩, ⟨1, -1, "diagUp"⟩]

/-- Shape of `MathUtils.SCORE_TABLE`. -/
structure ScoreTableT where
  FIVE : Nat
  OPEN_FOUR : Nat
  CLOSED_FOUR : Nat
  OPEN_THREE : Nat
  CLOSED_THREE : Nat
  OPEN_TWO : Nat
  CLOSED_TWO : Nat
deriving Repr, DecidableEq

/-- Values of `MathUtils.SCORE_TABLE`. -/
def SCORE_TABLE : ScoreTableT :=
  { FIVE := 1000000
    OPEN_FOUR := 100000
    CLOSED_FOUR := 40000
    OPEN_THREE := 6000
    CLOSED_THREE := 1500
    OPEN_TWO := 400
    CLOSED_TWO := 80 }

/-- Embeds `MathUtils.cloneBoard` (a pure value needs no copying; the source's
`board.map(row => row.slice())` is the identity on the value level). -/
def cloneBoard (b : Board) : Board := b.map (fun row => row)

/-- Embeds `MathUtils.getOpponent`. -/
def getOpponent (player : Nat) : Nat := if player = 1 then 2 else 1

/-- The `while (inBounds && board[ny][nx] === player)` walk of
`MathUtils.countDirection` / `RuleEngine.checkWin`: number of steps taken and
the first position that fails the test.  `fuel = board.length` always suffices,
because a walk along a nonzero direction leaves the board after at most
`board.length` in-bounds steps. -/
def walkCount (b : Board) (p : Nat) (dx dy : Int) : Nat → Int → Int → Nat × Int × Int
  | 0, x, y => (0, x, y)
  | Nat.succ fuel, x, y =>
    if inBounds x y b.length && (getCell b x y == p) then
      let r := walkCount b p dx dy fuel (x + dx) (y + dy)
      (r.1 + 1, r.2)
    else (0, x, y)

/-- The same walk, collecting the visited positions in order (the
`line.push` / `prepend.push` loops of `RuleEngine.checkWin`). -/
def walkLine (b : Board) (p : Nat) (dx dy : Int) : Nat → Int → Int → List (Int × Int) × Int × Int
  | 0, x, y => ([], x, y)
  | Nat.succ fuel, x, y =>
    if inBounds x y b.length && (getCell b x y == p) then
      let r := walkLine b p dx dy fuel (x + dx) (y + dy)
      ((x, y) :: r.1, r.2)
    else ([], x, y)

/-- Result of `MathUtils.countDirection`. -/
structure CD where
  count : Nat
  openEnds : Nat
deriving Repr, DecidableEq

/-- Embeds `MathUtils.countDirection(board, x, y, dx, dy, player)`: contiguous run
length through `(x,y)` (the centre counts as 1 regardless of its content, as in
the source) plus the number of run ends followed by an in-bounds empty cell. -/
def countDirection (b : Board) (x y dx dy : Int) (p : Nat) : CD :=
  let size := b.length
  let f := walkCount b p dx dy size (x + dx) (y + dy)
  let fOpen := if inBounds f.2.1 f.2.2 size && (getCell b f.2.1 f.2.2 == 0) then 1 else 0
  let bwd := walkCount b p (-dx) (-dy) size (x - dx) (y - dy)
  let bOpen := if inBounds bwd.2.1 bwd.2.2 size && (getCell b bwd.2.1 bwd.2.2 == 0) then 1 else 0
  ⟨1 + f.1 + bwd.1, fOpen + bOpen⟩

/-- Embeds `MathUtils.hasLongLine`: some axis has a contiguous run of length ≥ 6 through `(x,y)`. -/
def hasLongLine (b : Board) (x y : Int) (p : Nat) : Bool :=
  BOARD_DIRECTIONS.any (fun d => 6 ≤ (countDirection b x y d.dx d.dy p).count)

/-- The per-run score lookup inside `MathUtils.evaluateBoard` (its
`if (count >= 5) ... else if (count === 4) ...` chain). -/
def runScore (count openEnds : Nat) : Nat :=
  if 5 ≤ count then SCORE_TABLE.FIVE
  else if count = 4 then
    (if openEnds = 2 then SCORE_TABLE.OPEN_FOUR
     else if openEnds = 1 then SCORE_TABLE.CLOSED_FOUR else 0)
  else if count = 3 then
    (if openEnds = 2 then SCORE_TABLE.OPEN_THREE
     else if openEnds = 1 then SCORE_TABLE.CLOSED_THREE else 0)
  else if count = 2 then
    (if openEnds = 2 then SCORE_TABLE.OPEN_TWO
     else if openEnds = 1 then SCORE_TABLE.CLOSED_TWO else 0)
  else 0

/-- Embeds `MathUtils.evaluateBoard(board, player)`: for every stone of `player` that
starts a run on an axis (previous cell on the axis is not `player`), add the
table score of `(count, openEnds)` for that run. -/
def evaluateBoard (b : Board) (p : Nat) : Nat :=
  (List.range b.length).foldl (fun acc y =>
    (List.range b.length).foldl (fun acc2 x =>
      if getCell b (x : Int) (y : Int) ≠ p then acc2
      else
        BOARD_DIRECTIONS.foldl (fun acc3 d =>
          let px := (x : Int) - d.dx
          let py := (y : Int) - d.dy
          if inBounds px py b.length && (getCell b px py == p) then acc3
          else
            let cd := countDirection b (x : Int) (y : Int) d.dx d.dy p
            acc3 + runScore cd.count cd.openEnds) acc2) acc) 0

/-- Measurement derived from `evaluateBoard`: the same traversal, keeping only
the contributions of four-patterns (the `count === 4` branch).  Used to state
what the evaluator's summed four-pattern contribution on a board is. -/
def evaluateBoardFours (b : Board) (p : Nat) : Nat :=
  (List.range b.length).foldl (fun acc y =>
    (List.range b.length).foldl (fun acc2 x =>
      if getCell b (x : Int) (y : Int) ≠ p then acc2
      else
        BOARD_DIRECTIONS.foldl (fun acc3 d =>
          let px := (x : Int) - d.dx
          let py := (y : Int) - d.dy
          if inBounds px py b.length && (getCell b px py == p) then acc3
          else
            let cd := countDirection b (x : Int) (y : Int) d.dx d.dy p
            acc3 + (if cd.count = 4 then runScore cd.count cd.openEnds else 0)) acc2) acc) 0

end MathUtils

/-- The `settings` object of `GameState` (only `forbiddenRules` is read by the core). -/
structure Settings where
  forbiddenRules : Bool
deriving Repr, DecidableEq

/-- One entry of `GameState.moveHistory`. -/
structure MoveRecord where
  step : Nat
  x : Int
  y : Int
  player : Nat
  timestamp : Int
deriving Repr, DecidableEq

/-- The fields of `GameState` the rule/AI core reads or writes. -/
structure GState where
  board : Board
  boardSize : Nat
  currentPlayer : Nat
  settings : Settings
  moveHistory : List MoveRecord
  gameStatus : String
  startTime : Option Int
deriving Repr, DecidableEq

/-- Embeds `GameState.isValidPosition` (bounds against `boardSize`; every state the
orchestrator constructs has `boardSize = board.length`). -/
def GState.isValidPosition (gs : GState) (x y : Int) : Bool :=
  inBounds x y gs.boardSize

namespace RuleEngine

open MathUtils

/-- Result of `RuleEngine.detectForbidden` (`details` payload omitted; the
claims only concern `isForbidden` and `type`). -/
structure ForbiddenResult where
  isForbidden : Bool
  type : Option String
deriving Repr, DecidableEq

/-- Per-axis data of `RuleEngine._analyzeDirections`. -/
structure DirStats where
  direction : String
  openThrees : Nat
  openFours : Nat
  rushFours : Nat
deriving Repr, DecidableEq

/-- Embeds `RuleEngine._getLineArray(board, x, y, dx, dy, player, range)`: the linear
window of radius `range` (always called with the default `6`) centred on
`(x,y)`; `1` own stone (the centre unconditionally), `0` empty, `2` opponent,
`3` out of bounds. -/
def getLineArray (b : Board) (x y dx dy : Int) (p : Nat) (range : Nat) : List Nat :=
  (List.range (2 * range + 1)).map (fun i =>
    let off : Int := (i : Int) - (range : Int)
    if off = 0 then 1
    else
      let nx := x + dx * off
      let ny := y + dy * off
      if !inBounds nx ny b.length then 3
      else if getCell b nx ny == p then 1
      else if getCell b nx ny == 0 then 0
      else 2)

/-- Accumulator of `RuleEngine._countOpenThrees` (the `seen` key set holds
`(start, end)` window offsets, exactly as the source's string keys do). -/
structure ThreeState where
  seen : List (Nat × Nat)
  count : Nat
deriving Repr, DecidableEq

/-- Embeds `RuleEngine._countOpenThrees(line, centerIndex)`: windows of length 7
containing the centre, no opponent/border cell, both window ends empty, exactly
3 own stones, at least 2 empties, and some inner 5-window that is an open
three; deduplicated by the `(start, end)` window key. -/
def countOpenThrees (line : List Nat) (centerIndex : Nat) : Nat :=
  (([7] : List Nat).foldl (fun st len =>
    (List.range (line.length + 1 - len)).foldl (fun (st2 : ThreeState) start =>
      let e := start + len - 1
      if centerIndex < start ∨ e < centerIndex then st2
      else
        let window := (line.drop start).take len
        if window.contains 2 || window.contains 3 then st2
        else if ¬(window.headD 9 = 0 ∧ window.getLastD 9 = 0) then st2
        else if ¬(window.count 1 = 3 ∧ 2 ≤ window.count 0) then st2
        else
          let hasPotential := (List.range (window.length + 1 - 5)).any (fun innerStart =>
            let inner := (window.drop innerStart).take 5
            if inner.contains 2 || inner.contains 3 then false
            else decide (inner.count 1 = 3 ∧ inner.headD 9 = 0 ∧ inner.getD 4 9 = 0))
          if ¬hasPotential then st2
          else if (start, e) ∈ st2.seen then st2
          else ⟨(start, e) :: st2.seen, st2.count + 1⟩) st) ⟨[], 0⟩).count

/-- Accumulator of `RuleEngine._countFours`: separate `(start, end)` key sets
for open and rush matches, as in the source. -/
structure FourState where
  seenOpen : List (Nat × Nat)
  seenRush : List (Nat × Nat)
  openFours : Nat
  rushFours : Nat
deriving Repr, DecidableEq

/-- Embeds `RuleEngine._countFours(line, centerIndex)`: windows of length 6 and 7
containing the centre, no opponent/border cell, exactly 4 own stones; both ends
empty counts as an open four, exactly one end empty as a rush four;
deduplicated by the `(start, end)` window key per category. -/
def countFours (line : List Nat) (centerIndex : Nat) : FourState :=
  ([6, 7] : List Nat).foldl (fun st len =>
    (List.range (line.length + 1 - len)).foldl (fun (st2 : FourState) start =>
      let e := start + len - 1
      if centerIndex < start ∨ e < centerIndex then st2
      else
        let window := (line.drop start).take len
        if window.contains 2 || window.contains 3 then st2
        else if ¬(window.count 1 = 4) then st2
        else
          let leftEmpty := window.headD 9 = 0
          let rightEmpty := window.getLastD 9 = 0
          if leftEmpty ∧ rightEmpty then
            if (start, e) ∈ st2.seenOpen then st2
            else { st2 with seenOpen := (start, e) :: st2.seenOpen, openFours := st2.openFours + 1 }
          else if leftEmpty ∨ rightEmpty then
            if (start, e) ∈ st2.seenRush then st2
            else { st2 with seenRush := (start, e) :: st2.seenRush, rushFours := st2.rushFours + 1 }
          else st2) st) ⟨[], [], 0, 0⟩

/-- Embeds `RuleEngine._analyzeDirections(board, x, y, player)`. -/
def analyzeDirections (b : Board) (x y : Int) (p : Nat) : List DirStats :=
  BOARD_DIRECTIONS.map (fun d =>
    let line := getLineArray b x y d.dx d.dy p 6
    let centerIndex := line.length / 2
    let threes := countOpenThrees line centerIndex
    let fours := countFours line centerIndex
    ⟨d.name, threes, fours.openFours, fours.rushFours⟩)

/-- Embeds `RuleEngine.detectForbidden(x, y, player)` with the in-place mutation made
explicit: returns the result together with the caller's board as it is left on
exit (`board[y][x] = player` before the checks, `board[y][x] = 0` in the
`finally` block on every exit path after the placement). -/
def detectForbiddenRun (b : Board) (s : Settings) (x y : Int) (p : Nat) :
    ForbiddenResult × Board :=
  if p ≠ 1 ∨ s.forbiddenRules = false then (⟨false, none⟩, b)
  else if getCell b x y ≠ 0 then (⟨true, some "position_occupied"⟩, b)
  else
    let b1 := setCell b x y p
    let res : ForbiddenResult :=
      if hasLongLine b1 x y p then ⟨true, some "long_line"⟩
      else
        let stats := analyzeDirections b1 x y p
        let openThrees : Nat := (stats.map (fun st => st.openThrees)).sum
        let openFours : Nat := (stats.map (fun st => st.openFours)).sum
        let rushFours : Nat := (stats.map (fun st => st.rushFours)).sum
        if 2 ≤ openFours + rushFours then ⟨true, some "double_four"⟩
        else if 2 ≤ openThrees then ⟨true, some "double_three"⟩
        else ⟨false, none⟩
    (res, setCell b1 x y 0)

/-- The result component of `RuleEngine.detectForbidden`. -/
def detectForbidden (b : Board) (s : Settings) (x y : Int) (p : Nat) : ForbiddenResult :=
  (detectForbiddenRun b s x y p).1

/-- The ordered win line `RuleEngine.checkWin` reports for a direction:
reversed backward segment, then `(x,y)`, then the forward segment. -/
def winLineOf (b : Board) (x y : Int) (p : Nat) (d : Dir) : List (Int × Int) :=
  (walkLine b p (-d.dx) (-d.dy) b.length (x - d.dx) (y - d.dy)).1.reverse ++
    (x, y) :: (walkLine b p d.dx d.dy b.length (x + d.dx) (y + d.dy)).1

/-- The direction loop of `RuleEngine.checkWin`: first axis whose run through
`(x,y)` reaches length 5 wins, with its ordered line and axis name. -/
def checkWinAux (b : Board) (x y : Int) (p : Nat) :
    List Dir → Option (List (Int × Int) × String)
  | [] => none
  | d :: rest =>
    let fwd := (walkLine b p d.dx d.dy b.length (x + d.dx) (y + d.dy)).1
    let bwd := (walkLine b p (-d.dx) (-d.dy) b.length (x - d.dx) (y - d.dy)).1
    if 5 ≤ 1 + fwd.length + bwd.length then some (bwd.reverse ++ (x, y) :: fwd, d.name)
    else checkWinAux b x y p rest

/-- Embeds `RuleEngine.checkWin(x, y, player)`: `some (winLine, direction)` on a win,
`none` otherwise (the source's `{isWin, winLine?, direction?}`). -/
def checkWin (b : Board) (x y : Int) (p : Nat) : Option (List (Int × Int) × String) :=
  checkWinAux b x y p BOARD_DIRECTIONS

/-- Result of `RuleEngine.validateMove`. -/
structure ValidateResult where
  valid : Bool
  error : Option String
  forbiddenInfo : Option ForbiddenResult
deriving Repr, DecidableEq

/-- Embeds `RuleEngine.validateMove(x, y, player)`. -/
def validateMove (gs : GState) (x y : Int) (p : Nat) : ValidateResult :=
  if ¬ gs.isValidPosition x y then ⟨false, some "out_of_bounds", none⟩
  else if getCell gs.board x y ≠ 0 then ⟨false, some "position_occupied", none⟩
  else if p = 1 ∧ gs.settings.forbiddenRules then
    let fi := detectForbidden gs.board gs.settings x y p
    if fi.isForbidden then ⟨false, some "forbidden_move", some fi⟩
    else ⟨true, none, none⟩
  else ⟨true, none, none⟩

end RuleEngine

namespace GameState

/-- Result of `GameState.applyMove`. -/
structure ApplyResult where
  success : Bool
  error : Option String
deriving Repr, DecidableEq

/-- Embeds `GameState.applyMove(move)`: the timestamp source `Date.now()` is passed in
as `now`.  `move.player || this.currentPlayer` means an absent or `0` player
falls back to the current player. -/
def applyMove (gs : GState) (mx my : Int) (mplayer : Option Nat) (now : Int) :
    ApplyResult × GState :=
  let player := match mplayer with
    | some p => if p = 0 then gs.currentPlayer else p
    | none => gs.currentPlayer
  if ¬ gs.isValidPosition mx my then (⟨false, some "Position out of bounds"⟩, gs)
  else if getCell gs.board mx my ≠ 0 then (⟨false, some "Position occupied"⟩, gs)
  else if gs.gameStatus = "finished" then (⟨false, some "Game already finished"⟩, gs)
  else
    let rcd : MoveRecord := ⟨gs.moveHistory.length + 1, mx, my, player, now⟩
    let gs1 := { gs with
      board := setCell gs.board mx my player
      moveHistory := gs.moveHistory ++ [rcd] }
    let gs2 := if gs1.gameStatus = "ready"
      then { gs1 with gameStatus := "playing", startTime := some now }
      else gs1
    (⟨true, none⟩, gs2)

end GameState

namespace MathUtils

/-- One candidate of `MathUtils.generateCandidateMoves` (weights are rational
because the centre-distance bonus uses the possibly fractional `(size-1)/2`). -/
structure Cand where
  x : Int
  y : Int
  weight : ℚ
deriving Repr, DecidableEq

/-- Embeds `candidates.set(key, ...)` on the insertion-ordered JS `Map`: update the
entry with the same `(x, y)` key in place, or append a fresh entry. -/
def bump : List Cand → Int → Int → ℚ → List Cand
  | [], nx, ny, w => [⟨nx, ny, w⟩]
  | c :: rest, nx, ny, w =>
    if c.x = nx ∧ c.y = ny then ⟨c.x, c.y, c.weight + w⟩ :: rest
    else c :: bump rest nx ny w

/-- The `(dx, dy)` double loop of `generateCandidateMoves`, `dx` outer. -/
def squareOffsets (r : Nat) : List (Int × Int) :=
  (List.range (2 * r + 1)).flatMap (fun (i : Nat) =>
    (List.range (2 * r + 1)).map (fun (j : Nat) => ((i : Int) - (r : Int), (j : Int) - (r : Int))))

/-- All board coordinates in iteration order (`y` outer, `x` inner). -/
def allCells (n : Nat) : List (Int × Int) :=
  (List.range n).flatMap (fun (y : Nat) =>
    (List.range n).map (fun (x : Nat) => ((x : Int), (y : Int))))

/-- Whether any cell is occupied (the `hasAnyPiece` flag of the source's scan). -/
def hasAnyPiece (b : Board) : Bool :=
  (allCells b.length).any (fun c => getCell b c.1 c.2 != 0)

/-- The candidate `Map` built by `generateCandidateMoves` before sorting: every
occupied cell adds `max(0, (2r+1) - (|dx|+|dy|)) + (20 - distanceToCenter)` to
every empty in-bounds cell of its `(2r+1) × (2r+1)` square. -/
def buildCandidates (b : Board) (r : Nat) : List Cand :=
  let center : ℚ := ((b.length : ℚ) - 1) / 2
  (allCells b.length).foldl (fun m c =>
    if getCell b c.1 c.2 ≠ 0 then
      (squareOffsets r).foldl (fun m2 off =>
        let nx := c.1 + off.1
        let ny := c.2 + off.2
        if inBounds nx ny b.length && (getCell b nx ny == 0) then
          let distanceToCenter : ℚ := |(nx : ℚ) - center| + |(ny : ℚ) - center|
          let neighborWeight : ℚ := max 0 ((2 * (r : ℚ) + 1) - (|(off.1 : ℚ)| + |(off.2 : ℚ)|))
          bump m2 nx ny (neighborWeight + (20 - distanceToCenter))
        else m2) m
    else m) []

/-- Descending weight order used by the final
`sort((a, b) => b.weight - a.weight)`. -/
def candOrder (a c : Cand) : Prop := c.weight ≤ a.weight

instance : DecidableRel candOrder := fun a c => inferInstanceAs (Decidable (c.weight ≤ a.weight))

instance : IsTotal Cand candOrder := ⟨fun a c => (le_total c.weight a.weight)⟩

instance : IsTrans Cand candOrder := ⟨fun _ _ _ h1 h2 => le_trans h2 h1⟩

/-- Embeds `MathUtils.generateCandidateMoves(board, radius)`: the single centre
candidate on an empty board, otherwise the accumulated map sorted by
descending weight (a stable sort, like the JS one). -/
def generateCandidateMoves (b : Board) (r : Nat) : List Cand :=
  if hasAnyPiece b then List.insertionSort candOrder (buildCandidates b r)
  else [⟨((b.length / 2 : Nat) : Int), ((b.length / 2 : Nat) : Int), 1000⟩]

end MathUtils

namespace AIEngine

open MathUtils RuleEngine

/-- JS numbers as used by the search: rationals extended with the `±Infinity`
sentinels that initialise `bestScore`, `alpha` and `beta`. -/
inductive XQ
  | negInf
  | fin (q : ℚ)
  | posInf
deriving Repr, DecidableEq

/-- Comparison `a <= b` on scores. -/
def XQ.le : XQ → XQ → Bool
  | .negInf, _ => true
  | _, .posInf => true
  | .fin a, .fin c => decide (a ≤ c)
  | _, _ => false

/-- Comparison `a < b` on scores (`b > a` in the source's comparisons). -/
def XQ.lt (a c : XQ) : Bool := !(XQ.le c a)

/-- Embeds `Math.max` on scores. -/
def xmax (a c : XQ) : XQ := if XQ.le a c then c else a

/-- Embeds `Math.min` on scores. -/
def xmin (a c : XQ) : XQ := if XQ.le a c then a else c

/-- Embeds `AIStrategy.evaluate(board, player)`: own static score minus `0.9` times
the opponent's. -/
def strategyEvaluate (b : Board) (p : Nat) : ℚ :=
  (evaluateBoard b p : ℚ) - (evaluateBoard b (getOpponent p) : ℚ) * (9 / 10)

/-- The move record the strategies and `AIEngine.computeMove` return. -/
structure Move where
  x : Int
  y : Int
  score : XQ
deriving Repr, DecidableEq

/-- Embeds `NormalStrategy._minimax(board, player, depth, alpha, beta, isMaximizing)`
with the shared mutable board passed explicitly (each candidate places a stone,
recurses, then restores the cell to `0`) and `fuel = maxDepth - depth`, so the
`depth >= maxDepth` leaf test becomes `fuel = 0`.  The alpha-beta `break` is a
`stopped` flag that skips the remaining candidates. -/
def minimaxRun (maxCands player : Nat) : Nat → Board → XQ → XQ → Bool → XQ × Board
  | 0, b, _, _, _ => (XQ.fin (strategyEvaluate b player), b)
  | Nat.succ fuel, b, alpha, beta, isMax =>
    let cands := (generateCandidateMoves b 2).take maxCands
    if cands.isEmpty then (XQ.fin (strategyEvaluate b player), b)
    else if isMax then
      let r := cands.foldl (fun (st : XQ × XQ × Board × Bool) c =>
        if st.2.2.2 then st
        else
          let b1 := setCell st.2.2.1 c.x c.y player
          let sub := minimaxRun maxCands player fuel b1 st.2.1 beta false
          let b3 := setCell sub.2 c.x c.y 0
          let maxEval := xmax st.1 sub.1
          let alpha2 := xmax st.2.1 sub.1
          (maxEval, alpha2, b3, XQ.le beta alpha2)) (XQ.negInf, alpha, b, false)
      (r.1, r.2.2.1)
    else
      let r := cands.foldl (fun (st : XQ × XQ × Board × Bool) c =>
        if st.2.2.2 then st
        else
          let b1 := setCell st.2.2.1 c.x c.y (getOpponent player)
          let sub := minimaxRun maxCands player fuel b1 alpha st.2.1 true
          let b3 := setCell sub.2 c.x c.y 0
          let minEval := xmin st.1 sub.1
          let beta2 := xmin st.2.1 sub.1
          (minEval, beta2, b3, XQ.le beta2 alpha)) (XQ.posInf, beta, b, false)
      (r.1, r.2.2.1)

/-- Embeds `NormalStrategy.compute(state, player)` (`maxDepth = 2`,
`maxCandidates = 12`): board-centre fallback when no candidates exist,
otherwise the best root candidate by one-ply-deep minimax on a clone of the
state's board (root call at `depth = 1`, hence fuel `2 - 1 = 1`). -/
def normalCompute (gs : GState) (player : Nat) : Move :=
  let cands := generateCandidateMoves gs.board 2
  if cands.isEmpty then ⟨((gs.boardSize / 2 : Nat) : Int), ((gs.boardSize / 2 : Nat) : Int), XQ.fin 0⟩
  else
    let top := cands.take (min 12 cands.length)
    let r := top.foldl (fun (st : Option Move × XQ) c =>
      let board := cloneBoard gs.board
      let b1 := setCell board c.x c.y player
      let s := (minimaxRun 12 player 1 b1 XQ.negInf XQ.posInf false).1
      if XQ.lt st.2 s then (some ⟨c.x, c.y, s⟩, s) else st) (none, XQ.negInf)
    match r.1 with
    | some m => m
    | none =>
      match top.head? with
      | some c => ⟨c.x, c.y, XQ.fin c.weight⟩
      | none => ⟨0, 0, XQ.fin 0⟩

/-- Embeds `AIEngine._findFallbackMove(player, excludedX, excludedY)`: first candidate
in weight order, excluding the original pick, that passes `validateMove`. -/
def findFallbackMove (gs : GState) (player : Nat) (ex ey : Int) : Option Move :=
  ((generateCandidateMoves gs.board 2).find? (fun c =>
    !(c.x == ex && c.y == ey) && (validateMove gs c.x c.y player).valid)).map
    (fun c => ⟨c.x, c.y, XQ.fin c.weight⟩)

/-- The post-strategy validation of `AIEngine.computeMove`: keep the strategy's
pick if it validates, otherwise take the fallback if one exists — and when no
fallback exists, return the original (invalid) pick unchanged. -/
def resolveMove (gs : GState) (player : Nat) (pick : Move) : Move :=
  if (validateMove gs pick.x pick.y player).valid then pick
  else
    match findFallbackMove gs player pick.x pick.y with
    | some f => f
    | none => pick

/-- Embeds `AIEngine.computeMove(player)` at the default `NORMAL` difficulty:
strategy compute followed by validate-and-fall-back. -/
def computeMoveNormal (gs : GState) (player : Nat) : Move :=
  resolveMove gs player (normalCompute gs player)

end AIEngine

/-- A board whose rows all have its own length (true of every board the
orchestrator builds; `GameState.reset` creates an `N × N` matrix). -/
def squareBoard (b : Board) : Prop := ∀ row ∈ b, row.length = b.length

instance (b : Board) : Decidable (squareBoard b) := List.decidableBAll _ b

namespace RuleEngine

/-- The `openFours` sum `detectForbidden` reduces over `_analyzeDirections`. -/
def openFoursTotal (b : Board) (x y : Int) (p : Nat) : Nat :=
  ((analyzeDirections b x y p).map (fun st => st.openFours)).sum

/-- The `rushFours` sum `detectForbidden` reduces over `_analyzeDirections`. -/
def rushFoursTotal (b : Board) (x y : Int) (p : Nat) : Nat :=
  ((analyzeDirections b x y p).map (fun st => st.rushFours)).sum

/-- The `openThrees` sum `detectForbidden` reduces over `_analyzeDirections`. -/
def openThreesTotal (b : Board) (x y : Int) (p : Nat) : Nat :=
  ((analyzeDirections b x y p).map (fun st => st.openThrees)).sum

end RuleEngine

section ConcreteInputs

/-- The empty 15 × 15 board. -/
def emptyBoard : Board := mkBoard 15 (fun _ _ => 0)

/-- A board whose only stone is Black at `(7,7)` (occupied-target scenario). -/
def occupiedBoard : Board := mkBoard 15 (fun x y => if x = 7 ∧ y = 7 then 1 else 0)

/-- Black stones at `(5,7)`, `(6,7)`, `(8,7)`: placing at `(7,7)` creates a
single physical open four `(5..8, 7)` — the scenario of the repository's own
test `非四四 - 单个活四`. -/
def singleFourBoard : Board :=
  mkBoard 15 (fun x y => if y = 7 ∧ (x = 5 ∨ x = 6 ∨ x = 8) then 1 else 0)

/-- Black stones filling columns `0–3`, `5–8`, `10–13` of rows `0, 2, 4, 6, 8`:
fifteen separate four-runs (one closed, two open per row), no run of another
length scoring anything. -/
def manyFoursBoard : Board :=
  mkBoard 15 (fun x y =>
    if y % 2 = 0 ∧ y ≤ 8 ∧ (x ≤ 3 ∨ (5 ≤ x ∧ x ≤ 8) ∨ (10 ≤ x ∧ x ≤ 13)) then 1 else 0)

/-- A completely full board (no empty cell anywhere); `7 × 7` — the board side
is a `GameState` constructor parameter. -/
def fullBoard : Board := mkBoard 7 (fun x y => (x + y) % 2 + 1)

/-- A game state over the full board (exhausted-fallback scenario). -/
def fullState : GState :=
  { board := fullBoard
    boardSize := 7
    currentPlayer := 2
    settings := ⟨true⟩
    moveHistory := []
    gameStatus := "playing"
    startTime := none }

/-- A tiny empty state used to instantiate hypotheses of universally
quantified theorems at a concrete input. -/
def tinyState : GState :=
  { board := mkBoard 5 (fun _ _ => 0)
    boardSize := 5
    currentPlayer := 1
    settings := ⟨true⟩
    moveHistory := []
    gameStatus := "ready"
    startTime := none }

end ConcreteInputs

/-! ## Board access lemmas -/

theorem inBounds_iff {x y : Int} {n : Nat} :
    inBounds x y n = true ↔ 0 ≤ x ∧ 0 ≤ y ∧ x < (n : Int) ∧ y < (n : Int) := by
  simp [inBounds]

theorem set_getD_self {α : Type} : ∀ (l : List α) (n : Nat) (d : α), l.set n (l.getD n d) = l
  | [], _, _ => by simp
  | a :: l, 0, d => by simp [List.getD]
  | a :: l, n + 1, d => by
    simpa [List.getD] using set_getD_self l n d

theorem set_zero_of_getD_zero (l : List Nat) (n : Nat) (h : l.getD n 0 = 0) : l.set n 0 = l := by
  have := set_getD_self l n 0
  rwa [h] at this

theorem getD_set_self {α : Type} (l : List α) (n : Nat) (v d : α) (h : n < l.length) :
    (l.set n v).getD n d = v := by
  rw [List.getD_eq_getElem?_getD, List.getElem?_set_self h]
  rfl

theorem getD_set_ne {α : Type} (l : List α) (n m : Nat) (v d : α) (h : n ≠ m) :
    (l.set n v).getD m d = l.getD m d := by
  rw [List.getD_eq_getElem?_getD, List.getElem?_set_ne h, ← List.getD_eq_getElem?_getD]

theorem setCell_length (b : Board) (x y : Int) (v : Nat) :
    (setCell b x y v).length = b.length := by
  unfold setCell
  split
  · exact List.length_set ..
  · rfl

theorem toNat_bounds {y : Int} {n : Nat} (h0 : 0 ≤ y) (h1 : y < (n : Int)) : y.toNat < n := by
  omega

/-- The restore step of the mutate-then-restore discipline: placing a stone on
an empty cell and then clearing that cell returns exactly the original board. -/
theorem setCell_setCell_restore (b : Board) (x y : Int) (v : Nat) (h : getCell b x y = 0) :
    setCell (setCell b x y v) x y 0 = b := by
  by_cases hb : inBounds x y b.length
  · obtain ⟨hx0, hy0, hxn, hyn⟩ := inBounds_iff.mp hb
    have hylt : y.toNat < b.length := toNat_bounds hy0 hyn
    unfold setCell
    rw [if_pos hb]
    have hlen : (b.set y.toNat ((b.getD y.toNat []).set x.toNat v)).length = b.length :=
      List.length_set ..
    rw [hlen, if_pos hb]
    rw [getD_set_self _ _ _ _ (by simpa [hlen] using hylt)]
    rw [List.set_set, List.set_set]
    have hrow : (b.getD y.toNat []).getD x.toNat 0 = 0 := by
      unfold getCell at h
      rwa [if_pos hb] at h
    rw [set_zero_of_getD_zero _ _ hrow]
    exact set_getD_self b y.toNat []
  · unfold setCell
    rw [if_neg hb, if_neg hb]

theorem getCell_setCell_self (b : Board) (x y : Int) (v : Nat)
    (hsq : squareBoard b) (hb : inBounds x y b.length = true) :
    getCell (setCell b x y v) x y = v := by
  obtain ⟨hx0, hy0, hxn, hyn⟩ := inBounds_iff.mp hb
  have hylt : y.toNat < b.length := toNat_bounds hy0 hyn
  have hxlt : x.toNat < b.length := toNat_bounds hx0 hxn
  unfold getCell setCell
  rw [if_pos hb, if_pos (by rw [List.length_set]; exact hb)]
  rw [getD_set_self _ _ _ _ hylt]
  have hrowlen : (b.getD y.toNat []).length = b.length := by
    have hmem : b.getD y.toNat [] ∈ b := by
      rw [List.getD_eq_getElem?_getD, List.getElem?_eq_getElem hylt]
      exact List.getElem_mem hylt
    exact hsq _ hmem
  exact getD_set_self _ _ _ _ (by rw [hrowlen]; exact hxlt)

theorem getCell_setCell_ne (b : Board) (x y px py : Int) (v : Nat)
    (hne : ¬(px = x ∧ py = y)) :
    getCell (setCell b x y v) px py = getCell b px py := by
  by_cases hb : inBounds x y b.length
  · obtain ⟨hx0, hy0, hxn, hyn⟩ := inBounds_iff.mp hb
    unfold getCell setCell
    rw [if_pos hb, List.length_set]
    by_cases hpb : inBounds px py b.length
    · obtain ⟨hpx0, hpy0, hpxn, hpyn⟩ := inBounds_iff.mp hpb
      rw [if_pos hpb, if_pos hpb]
      by_cases hyy : y.toNat = py.toNat
      · have hy : py = y := by omega
        subst hy
        rw [getD_set_self _ _ _ _ (toNat_bounds hpy0 hpyn)]
        have hx : ¬ px = x := fun hx => hne ⟨hx, rfl⟩
        have hxx : x.toNat ≠ px.toNat := by omega
        exact getD_set_ne _ _ _ _ _ hxx
      · rw [getD_set_ne _ _ _ _ _ hyy]
    · rw [if_neg hpb, if_neg hpb]
  · unfold setCell
    rw [if_neg hb]

/-! ## C8: `detectForbidden` is a no-op for non-Black players and with rules disabled -/

/-- C8: for every board and position, `detectForbidden` returns `Allowed`
(`isForbidden = false`, no kind) whenever the player is not Black or the
forbidden-rules setting is disabled; being a total function of its inputs, it
never fails on game-legal inputs. -/
theorem detectForbidden_noop (b : Board) (s : Settings) (x y : Int) (p : Nat)
    (h : p ≠ 1 ∨ s.forbiddenRules = false) :
    RuleEngine.detectForbidden b s x y p = ⟨false, none⟩ := by
  unfold RuleEngine.detectForbidden RuleEngine.detectForbiddenRun
  rw [if_pos h]

/-- Witness for C8 at a concrete input: White at `(7,7)` on a board that
forbids Black there. -/
theorem detectForbidden_noop_witness :
    ((2 ≠ 1 ∨ (⟨true⟩ : Settings).forbiddenRules = false) ∧
      RuleEngine.detectForbidden occupiedBoard ⟨true⟩ 7 7 2 = ⟨false, none⟩) :=
  ⟨Or.inl (by decide), detectForbidden_noop occupiedBoard ⟨true⟩ 7 7 2 (Or.inl (by decide))⟩

/-! ## C9: the kinds a `Forbidden` result can carry -/

set_option maxRecDepth 40000

/-- C9 (amended): whenever `detectForbidden` reports `isForbidden = true`, the
kind is one of exactly **four** values — `long_line` (overline),
`double_four`, `double_three`, or the distinct `position_occupied` used for
the occupied-target rejection, which is *not* one of the three rule kinds. -/
theorem detectForbidden_kinds (b : Board) (s : Settings) (x y : Int) (p : Nat)
    (h : (RuleEngine.detectForbidden b s x y p).isForbidden = true) :
    (RuleEngine.detectForbidden b s x y p).type = some "long_line" ∨
    (RuleEngine.detectForbidden b s x y p).type = some "double_four" ∨
    (RuleEngine.detectForbidden b s x y p).type = some "double_three" ∨
    (RuleEngine.detectForbidden b s x y p).type = some "position_occupied" := by
  revert h
  unfold RuleEngine.detectForbidden RuleEngine.detectForbiddenRun
  split_ifs
  · simp
  · simp
  · dsimp only
    split_ifs <;> simp

/-- Witness for C9's amended theorem: the occupied-target input. -/
theorem detectForbidden_kinds_witness :
    ((RuleEngine.detectForbidden occupiedBoard ⟨true⟩ 7 7 1).isForbidden = true ∧
      ((RuleEngine.detectForbidden occupiedBoard ⟨true⟩ 7 7 1).type = some "long_line" ∨
       (RuleEngine.detectForbidden occupiedBoard ⟨true⟩ 7 7 1).type = some "double_four" ∨
       (RuleEngine.detectForbidden occupiedBoard ⟨true⟩ 7 7 1).type = some "double_three" ∨
       (RuleEngine.detectForbidden occupiedBoard ⟨true⟩ 7 7 1).type = some "position_occupied")) :=
  ⟨by decide, detectForbidden_kinds occupiedBoard ⟨true⟩ 7 7 1 (by decide)⟩

/-- Counterexample for C9 as stated: on an occupied target the reported kind is
`position_occupied`, which is none of the three claimed values
`overline`/`long_line`, `double_four`, `double_three`. -/
theorem detectForbidden_kind_occupied :
    RuleEngine.detectForbidden occupiedBoard ⟨true⟩ 7 7 1 =
      ⟨true, some "position_occupied"⟩ ∧
    ("position_occupied" ≠ "long_line" ∧ "position_occupied" ≠ "overline" ∧
     "position_occupied" ≠ "double_four" ∧ "position_occupied" ≠ "double_three") := by
  constructor
  · decide
  · decide

/-! ## C2: window-offset deduplication counts one physical four many times -/

/-- C2 (code bug): Black stones at `(5,7)`, `(6,7)`, `(8,7)` and the move
`(7,7)` create exactly one physical four (the open four `(5..8, 7)`), yet
`detectForbidden` classifies the move `double_four`: `_countFours` keys its
deduplication sets by window offsets `start-end`, not by the matched stone
positions, so the one four is counted as 3 open fours and 4 rush fours on the
horizontal axis alone.  The repository's own test suite asserts this very
position must not be forbidden (test `非四四 - 单个活四`). -/
theorem singleFour_counted_as_double_four :
    RuleEngine.detectForbidden singleFourBoard ⟨true⟩ 7 7 1 = ⟨true, some "double_four"⟩ ∧
    RuleEngine.openFoursTotal (setCell singleFourBoard 7 7 1) 7 7 1 = 3 ∧
    RuleEngine.rushFoursTotal (setCell singleFourBoard 7 7 1) 7 7 1 = 4 := by
  refine ⟨by decide, by decide, by decide⟩

/-! ## C6: score-table ordering and the five-vs-fours domination -/

/-- C6 counterexample: a board on which the evaluator's summed four-pattern
contribution (fifteen four-runs: five rows of one closed and two open fours)
is `1,200,000`, strictly more than the five-in-a-row score `1,000,000` — so a
single five does **not** outscore every combination of fours present on a
board.  On this board the whole evaluation consists of four contributions. -/
theorem fourSum_exceeds_five :
    MathUtils.SCORE_TABLE.FIVE ≤ MathUtils.evaluateBoardFours manyFoursBoard 1 ∧
    MathUtils.evaluateBoardFours manyFoursBoard 1 = 1200000 ∧
    MathUtils.evaluateBoard manyFoursBoard 1 = 1200000 := by
  refine ⟨by decide, by decide, by decide⟩

/-- C6 (amended): the score table is strictly ordered
`FIVE > OPEN_FOUR > CLOSED_FOUR > OPEN_THREE > CLOSED_THREE > OPEN_TWO >
CLOSED_TWO` (each open pattern strictly above the half-closed one of the same
length), and a single five strictly outscores any combination of **at most
nine** four-patterns; boards with ten or more counted four-patterns can reach
or exceed the five score. -/
theorem score_table_order (l : List Nat)
    (hv : ∀ v ∈ l, v = MathUtils.SCORE_TABLE.OPEN_FOUR ∨ v = MathUtils.SCORE_TABLE.CLOSED_FOUR)
    (hlen : l.length ≤ 9) :
    (MathUtils.SCORE_TABLE.OPEN_FOUR < MathUtils.SCORE_TABLE.FIVE ∧
     MathUtils.SCORE_TABLE.CLOSED_FOUR < MathUtils.SCORE_TABLE.OPEN_FOUR ∧
     MathUtils.SCORE_TABLE.OPEN_THREE < MathUtils.SCORE_TABLE.CLOSED_FOUR ∧
     MathUtils.SCORE_TABLE.CLOSED_THREE < MathUtils.SCORE_TABLE.OPEN_THREE ∧
     MathUtils.SCORE_TABLE.OPEN_TWO < MathUtils.SCORE_TABLE.CLOSED_THREE ∧
     MathUtils.SCORE_TABLE.CLOSED_TWO < MathUtils.SCORE_TABLE.OPEN_TWO) ∧
    l.sum < MathUtils.SCORE_TABLE.FIVE := by
  refine ⟨by decide, ?_⟩
  have hbound : l.sum ≤ l.length • MathUtils.SCORE_TABLE.OPEN_FOUR := by
    refine List.sum_le_card_nsmul l _ (fun v hvmem => ?_)
    rcases hv v hvmem with h | h <;> simp [h, MathUtils.SCORE_TABLE]
  have : l.length • MathUtils.SCORE_TABLE.OPEN_FOUR ≤ 9 * MathUtils.SCORE_TABLE.OPEN_FOUR := by
    simpa [smul_eq_mul] using Nat.mul_le_mul_right MathUtils.SCORE_TABLE.OPEN_FOUR hlen
  have hfin : (9 : Nat) * MathUtils.SCORE_TABLE.OPEN_FOUR < MathUtils.SCORE_TABLE.FIVE := by decide
  omega

/-- Witness for C6's amended theorem: nine open fours sum below a five. -/
theorem score_table_order_witness :
    ((∀ v ∈ List.replicate 9 MathUtils.SCORE_TABLE.OPEN_FOUR,
        v = MathUtils.SCORE_TABLE.OPEN_FOUR ∨ v = MathUtils.SCORE_TABLE.CLOSED_FOUR) ∧
      (List.replicate 9 MathUtils.SCORE_TABLE.OPEN_FOUR).length ≤ 9 ∧
      (List.replicate 9 MathUtils.SCORE_TABLE.OPEN_FOUR).sum < MathUtils.SCORE_TABLE.FIVE) :=
  ⟨by decide, by decide,
    (score_table_order (List.replicate 9 MathUtils.SCORE_TABLE.OPEN_FOUR)
      (by decide) (by decide)).2⟩

/-! ## C1: the strict priority cascade of `detectForbidden` -/

/-- C1: for an empty target cell, Black, and active forbidden rules,
`detectForbidden` hypothetically places the stone and classifies in strict
priority order: an axis run of length ≥ 6 through `(x,y)` gives
overline (`long_line`) with no further checks; otherwise an open-four +
rush-four sum ≥ 2 across the four axes gives `double_four`; otherwise an
open-three sum ≥ 2 gives `double_three`; otherwise the move is allowed. -/
theorem detectForbidden_cascade (b : Board) (s : Settings) (x y : Int)
    (_hin : inBounds x y b.length = true)
    (hempty : getCell b x y = 0) (hrules : s.forbiddenRules = true) :
    ((∃ d ∈ MathUtils.BOARD_DIRECTIONS,
        6 ≤ (MathUtils.countDirection (setCell b x y 1) x y d.dx d.dy 1).count) →
      RuleEngine.detectForbidden b s x y 1 = ⟨true, some "long_line"⟩) ∧
    (¬(∃ d ∈ MathUtils.BOARD_DIRECTIONS,
        6 ≤ (MathUtils.countDirection (setCell b x y 1) x y d.dx d.dy 1).count) →
      2 ≤ RuleEngine.openFoursTotal (setCell b x y 1) x y 1 +
            RuleEngine.rushFoursTotal (setCell b x y 1) x y 1 →
      RuleEngine.detectForbidden b s x y 1 = ⟨true, some "double_four"⟩) ∧
    (¬(∃ d ∈ MathUtils.BOARD_DIRECTIONS,
        6 ≤ (MathUtils.countDirection (setCell b x y 1) x y d.dx d.dy 1).count) →
      RuleEngine.openFoursTotal (setCell b x y 1) x y 1 +
          RuleEngine.rushFoursTotal (setCell b x y 1) x y 1 < 2 →
      2 ≤ RuleEngine.openThreesTotal (setCell b x y 1) x y 1 →
      RuleEngine.detectForbidden b s x y 1 = ⟨true, some "double_three"⟩) ∧
    (¬(∃ d ∈ MathUtils.BOARD_DIRECTIONS,
        6 ≤ (MathUtils.countDirection (setCell b x y 1) x y d.dx d.dy 1).count) →
      RuleEngine.openFoursTotal (setCell b x y 1) x y 1 +
          RuleEngine.rushFoursTotal (setCell b x y 1) x y 1 < 2 →
      RuleEngine.openThreesTotal (setCell b x y 1) x y 1 < 2 →
      RuleEngine.detectForbidden b s x y 1 = ⟨false, none⟩) := by
  have hll : MathUtils.hasLongLine (setCell b x y 1) x y 1 = true ↔
      ∃ d ∈ MathUtils.BOARD_DIRECTIONS,
        6 ≤ (MathUtils.countDirection (setCell b x y 1) x y d.dx d.dy 1).count := by
    simp [MathUtils.hasLongLine, List.any_eq_true]
  unfold RuleEngine.detectForbidden RuleEngine.detectForbiddenRun
  rw [if_neg (by simp [hrules]), if_neg (by simp [hempty])]
  unfold RuleEngine.openFoursTotal RuleEngine.rushFoursTotal RuleEngine.openThreesTotal
  dsimp only
  refine ⟨fun hov => ?_, fun hov h4 => ?_, fun hov h4 h3 => ?_, fun hov h4 h3 => ?_⟩
  · rw [if_pos (hll.mpr hov)]
  · have hf : MathUtils.hasLongLine (setCell b x y 1) x y 1 ≠ true := fun hc => hov (hll.mp hc)
    rw [if_neg hf, if_pos h4]
  · have hf : MathUtils.hasLongLine (setCell b x y 1) x y 1 ≠ true := fun hc => hov (hll.mp hc)
    rw [if_neg hf, if_neg (by omega), if_pos h3]
  · have hf : MathUtils.hasLongLine (setCell b x y 1) x y 1 ≠ true := fun hc => hov (hll.mp hc)
    rw [if_neg hf, if_neg (by omega), if_neg (by omega)]

/-- Witness for C1 at a concrete input: the empty board, where the cascade
falls through to `Allowed`. -/
theorem detectForbidden_cascade_witness :
    (inBounds 7 7 emptyBoard.length = true ∧ getCell emptyBoard 7 7 = 0 ∧
      (⟨true⟩ : Settings).forbiddenRules = true ∧
      RuleEngine.detectForbidden emptyBoard ⟨true⟩ 7 7 1 = ⟨false, none⟩) := by
  refine ⟨by decide, by decide, rfl, ?_⟩
  exact (detectForbidden_cascade emptyBoard ⟨true⟩ 7 7 (by decide) (by decide) rfl).2.2.2
    (by decide) (by decide) (by decide)

/-! ## C10: atomicity of `GameState.applyMove` -/

/-- The effective player of `applyMove` (`move.player || this.currentPlayer`). -/
theorem applyMove_effective_player (gs : GState) (mplayer : Option Nat)
    (hcur : gs.currentPlayer ≠ 0) (hmp : ∀ q, mplayer = some q → q ≠ 0) :
    (match mplayer with
      | some q => if q = 0 then gs.currentPlayer else q
      | none => gs.currentPlayer) ≠ 0 := by
  cases mplayer with
  | none => exact hcur
  | some q =>
    by_cases hq : q = 0
    · show (if q = 0 then gs.currentPlayer else q) ≠ 0
      rw [if_pos hq]
      exact hcur
    · show (if q = 0 then gs.currentPlayer else q) ≠ 0
      rw [if_neg hq]
      exact hmp q rfl

/-- C10: `applyMove` is atomic on error — out-of-bounds, occupied target, or a
finished game yield `success = false` with an error and leave the board, move
history, current player and game status unchanged; on `success = true` the
board changes exactly at the target cell (empty before, the nonzero effective
player afterwards) and exactly one record is appended to the history. -/
theorem applyMove_atomic (gs : GState) (mx my : Int) (mplayer : Option Nat) (now : Int)
    (hsq : squareBoard gs.board) (hsz : gs.boardSize = gs.board.length)
    (hcur : gs.currentPlayer ≠ 0) (hmp : ∀ q, mplayer = some q → q ≠ 0) :
    ((GameState.applyMove gs mx my mplayer now).1.success = false →
      (GameState.applyMove gs mx my mplayer now).1.error.isSome = true ∧
      (GameState.applyMove gs mx my mplayer now).2.board = gs.board ∧
      (GameState.applyMove gs mx my mplayer now).2.moveHistory = gs.moveHistory ∧
      (GameState.applyMove gs mx my mplayer now).2.currentPlayer = gs.currentPlayer ∧
      (GameState.applyMove gs mx my mplayer now).2.gameStatus = gs.gameStatus) ∧
    ((GameState.applyMove gs mx my mplayer now).1.success = true →
      ∃ p : Nat, p ≠ 0 ∧
        (GameState.applyMove gs mx my mplayer now).2.board = setCell gs.board mx my p ∧
        (∀ px py : Int, ¬(px = mx ∧ py = my) →
          getCell (GameState.applyMove gs mx my mplayer now).2.board px py =
            getCell gs.board px py) ∧
        getCell (GameState.applyMove gs mx my mplayer now).2.board mx my = p ∧
        getCell gs.board mx my = 0 ∧
        (GameState.applyMove gs mx my mplayer now).2.moveHistory =
          gs.moveHistory ++ [⟨gs.moveHistory.length + 1, mx, my, p, now⟩]) := by
  have heff := applyMove_effective_player gs mplayer hcur hmp
  unfold GameState.applyMove
  dsimp only
  by_cases h1 : gs.isValidPosition mx my = true
  · by_cases h2 : getCell gs.board mx my = 0
    · by_cases h3 : gs.gameStatus = "finished"
      · rw [if_neg (by simp [h1]), if_neg (by simp [h2]), if_pos h3]
        exact ⟨fun _ => ⟨rfl, rfl, rfl, rfl, rfl⟩, fun hc => by simp at hc⟩
      · rw [if_neg (by simp [h1]), if_neg (by simp [h2]), if_neg h3]
        have hb : inBounds mx my gs.board.length = true := by
          have hbb := h1
          unfold GState.isValidPosition at hbb
          rwa [hsz] at hbb
        refine ⟨fun hc => by simp at hc, fun _ => ?_⟩
        refine ⟨_, heff, ?_, ?_, ?_, h2, ?_⟩
        · split <;> rfl
        · intro px py hne
          split <;> exact getCell_setCell_ne gs.board mx my px py _ hne
        · split <;> exact getCell_setCell_self gs.board mx my _ hsq hb
        · split <;> rfl
    · rw [if_neg (by simp [h1]), if_pos h2]
      exact ⟨fun _ => ⟨rfl, rfl, rfl, rfl, rfl⟩, fun hc => by simp at hc⟩
  · rw [if_pos h1]
    exact ⟨fun _ => ⟨rfl, rfl, rfl, rfl, rfl⟩, fun hc => by simp at hc⟩

/-- Witness for C10 at a concrete input: the first move on the empty 5×5
state succeeds and appends one record. -/
theorem applyMove_atomic_witness :
    (squareBoard tinyState.board ∧ tinyState.boardSize = tinyState.board.length ∧
      tinyState.currentPlayer ≠ 0 ∧
      (GameState.applyMove tinyState 2 2 none 0).1.success = true ∧
      ∃ p : Nat, p ≠ 0 ∧
        (GameState.applyMove tinyState 2 2 none 0).2.board = setCell tinyState.board 2 2 p ∧
        (∀ px py : Int, ¬(px = 2 ∧ py = 2) →
          getCell (GameState.applyMove tinyState 2 2 none 0).2.board px py =
            getCell tinyState.board px py) ∧
        getCell (GameState.applyMove tinyState 2 2 none 0).2.board 2 2 = p ∧
        getCell tinyState.board 2 2 = 0 ∧
        (GameState.applyMove tinyState 2 2 none 0).2.moveHistory =
          tinyState.moveHistory ++ [⟨tinyState.moveHistory.length + 1, 2, 2, p, 0⟩]) := by
  refine ⟨by decide, by decide, by decide, by decide, ?_⟩
  exact (applyMove_atomic tinyState 2 2 none 0 (by decide) (by decide) (by decide)
    (fun q hq => by simp at hq)).2 (by decide)

/-! ## C4: `checkWin` finds the first axis with a run of length ≥ 5 -/

/-- The position-collecting walk of `checkWin` and the counting walk of
`countDirection` agree: same number of steps, same final position. -/
theorem walk_agree (b : Board) (p : Nat) (dx dy : Int) :
    ∀ (fuel : Nat) (x y : Int),
      (MathUtils.walkLine b p dx dy fuel x y).1.length =
        (MathUtils.walkCount b p dx dy fuel x y).1 ∧
      (MathUtils.walkLine b p dx dy fuel x y).2 =
        (MathUtils.walkCount b p dx dy fuel x y).2
  | 0, _, _ => ⟨rfl, rfl⟩
  | Nat.succ fuel, x, y => by
    unfold MathUtils.walkLine MathUtils.walkCount
    by_cases h : (inBounds x y b.length && (getCell b x y == p)) = true
    · rw [if_pos h, if_pos h]
      have ih := walk_agree b p dx dy fuel (x + dx) (y + dy)
      exact ⟨by simp [ih.1], ih.2⟩
    · rw [if_neg h, if_neg h]
      exact ⟨rfl, rfl⟩

/-- Lemma: the run length of `countDirection` is one plus the lengths of the two collected
segments of `checkWin`. -/
theorem countDirection_count_eq (b : Board) (x y dx dy : Int) (p : Nat) :
    (MathUtils.countDirection b x y dx dy p).count =
      1 + (MathUtils.walkLine b p dx dy b.length (x + dx) (y + dy)).1.length +
        (MathUtils.walkLine b p (-dx) (-dy) b.length (x - dx) (y - dy)).1.length := by
  unfold MathUtils.countDirection
  dsimp only
  rw [(walk_agree b p dx dy b.length (x + dx) (y + dy)).1,
    (walk_agree b p (-dx) (-dy) b.length (x - dx) (y - dy)).1]

theorem checkWinAux_eq (b : Board) (x y : Int) (p : Nat) :
    ∀ dirs : List MathUtils.Dir,
      RuleEngine.checkWinAux b x y p dirs =
        (dirs.find? (fun d => decide (5 ≤ (MathUtils.countDirection b x y d.dx d.dy p).count))).map
          (fun d => (RuleEngine.winLineOf b x y p d, d.name))
  | [] => rfl
  | d :: rest => by
    unfold RuleEngine.checkWinAux
    dsimp only
    by_cases h : 5 ≤ (MathUtils.countDirection b x y d.dx d.dy p).count
    · rw [if_pos (by rw [countDirection_count_eq] at h; exact h)]
      rw [List.find?_cons_of_pos _ (by simpa using h)]
      rfl
    · rw [if_neg (by rw [countDirection_count_eq] at h; exact h)]
      rw [List.find?_cons_of_neg _ (by simpa using h)]
      exact checkWinAux_eq b x y p rest

/-- C4: `checkWin` returns a win exactly when some axis has a contiguous run
of total length ≥ 5 through `(x,y)` (runs of exactly 5 and of 6 or more both
win); the reported direction is the *first* such axis in the order
horizontal, vertical, diagDown, diagUp, and the reported line is the reversed
backward segment, then `(x,y)`, then the forward segment. -/
theorem checkWin_spec (b : Board) (x y : Int) (p : Nat) :
    RuleEngine.checkWin b x y p =
      (MathUtils.BOARD_DIRECTIONS.find?
        (fun d => decide (5 ≤ (MathUtils.countDirection b x y d.dx d.dy p).count))).map
        (fun d => (RuleEngine.winLineOf b x y p d, d.name)) ∧
    ((RuleEngine.checkWin b x y p).isSome = true ↔
      ∃ d ∈ MathUtils.BOARD_DIRECTIONS, 5 ≤ (MathUtils.countDirection b x y d.dx d.dy p).count) := by
  have he := checkWinAux_eq b x y p MathUtils.BOARD_DIRECTIONS
  refine ⟨he, ?_⟩
  unfold RuleEngine.checkWin
  rw [he]
  simp [List.find?_isSome]

/-! ## C5: `computeMove` validation and fallback -/

/-- C5 (amended): for every state, player, and strategy pick (covering every
outcome of the strategies' internal randomness), the move `computeMove`
returns after its validate-and-fall-back step either passes `validateMove`
(it is in-bounds, empty, and not forbidden for Black under active rules), or —
when the pick is invalid and no generator candidate other than the pick
validates — it is the original invalid pick returned unchanged; no failure is
signalled in that case.  `computeMove` at the `NORMAL` tier is exactly this
resolution applied to the strategy's pick. -/
theorem computeMove_fallback (gs : GState) (player : Nat) (pick : AIEngine.Move) :
    ((RuleEngine.validateMove gs (AIEngine.resolveMove gs player pick).x
        (AIEngine.resolveMove gs player pick).y player).valid = true ∨
      (AIEngine.resolveMove gs player pick = pick ∧
        (RuleEngine.validateMove gs pick.x pick.y player).valid = false ∧
        AIEngine.findFallbackMove gs player pick.x pick.y = none)) ∧
    AIEngine.computeMoveNormal gs player =
      AIEngine.resolveMove gs player (AIEngine.normalCompute gs player) := by
  refine ⟨?_, rfl⟩
  unfold AIEngine.resolveMove
  by_cases hv : (RuleEngine.validateMove gs pick.x pick.y player).valid = true
  · rw [if_pos hv]
    exact Or.inl hv
  · rw [if_neg hv]
    cases hf : AIEngine.findFallbackMove gs player pick.x pick.y with
    | none =>
      exact Or.inr ⟨rfl, by simpa using hv, rfl⟩
    | some f =>
      left
      show (RuleEngine.validateMove gs f.x f.y player).valid = true
      unfold AIEngine.findFallbackMove at hf
      obtain ⟨c, hc, hgc⟩ := Option.map_eq_some'.mp hf
      have hpc := List.find?_some hc
      rw [Bool.and_eq_true] at hpc
      rw [← hgc]
      exact hpc.2

/-- C5 counterexample for the claim as stated: on a full board the `NORMAL`
strategy picks the board centre, which is occupied; no fallback candidate
exists, and `computeMove` nevertheless returns that occupied centre cell as a
move instead of signalling failure — its own `validateMove` rejects its
output. -/
theorem computeMove_full_board :
    AIEngine.computeMoveNormal fullState 2 = ⟨3, 3, AIEngine.XQ.fin 0⟩ ∧
    (RuleEngine.validateMove fullState 3 3 2).valid = false ∧
    getCell fullState.board 3 3 ≠ 0 ∧
    AIEngine.findFallbackMove fullState 2 3 3 = none := by
  refine ⟨by decide, by decide, by decide, by decide⟩

/-! ## C7: the candidate generator -/

theorem bump_keys_mem (m : List MathUtils.Cand) (nx ny : Int) (w : ℚ)
    (h : (nx, ny) ∈ m.map (fun c => (c.x, c.y))) :
    (MathUtils.bump m nx ny w).map (fun c => (c.x, c.y)) = m.map (fun c => (c.x, c.y)) := by
  induction m with
  | nil => simp at h
  | cons c rest ih =>
    unfold MathUtils.bump
    by_cases hc : c.x = nx ∧ c.y = ny
    · rw [if_pos hc]
      simp
    · rw [if_neg hc]
      simp only [List.map_cons]
      simp only [List.map_cons, List.mem_cons] at h
      rcases h with h | h
      · exact absurd ⟨(Prod.mk.injEq .. ▸ h).1.symm, (Prod.mk.injEq .. ▸ h).2.symm⟩ hc
      · rw [ih h]

theorem bump_keys_not_mem (m : List MathUtils.Cand) (nx ny : Int) (w : ℚ)
    (h : (nx, ny) ∉ m.map (fun c => (c.x, c.y))) :
    (MathUtils.bump m nx ny w).map (fun c => (c.x, c.y)) =
      m.map (fun c => (c.x, c.y)) ++ [(nx, ny)] := by
  induction m with
  | nil => simp [MathUtils.bump]
  | cons c rest ih =>
    unfold MathUtils.bump
    by_cases hc : c.x = nx ∧ c.y = ny
    · exact absurd (by simp [hc.1, hc.2]) h
    · rw [if_neg hc]
      simp only [List.map_cons, List.cons_append]
      rw [ih (fun hmem => h (by simp [hmem]))]

theorem bump_forall (P : Int → Int → Prop) :
    ∀ (m : List MathUtils.Cand) (nx ny : Int) (w : ℚ),
      (∀ c ∈ m, P c.x c.y) → P nx ny → ∀ c ∈ MathUtils.bump m nx ny w, P c.x c.y
  | [], nx, ny, w, _, hn => by
    intro c hm
    unfold MathUtils.bump at hm
    rcases List.mem_singleton.mp hm with rfl
    exact hn
  | c0 :: rest, nx, ny, w, hm, hn => by
    intro c hc
    unfold MathUtils.bump at hc
    by_cases h0 : c0.x = nx ∧ c0.y = ny
    · rw [if_pos h0] at hc
      rcases List.mem_cons.mp hc with rfl | hrest
      · exact hm c0 (by simp)
      · exact hm c (by simp [hrest])
    · rw [if_neg h0] at hc
      rcases List.mem_cons.mp hc with rfl | hrest
      · exact hm c (by simp)
      · exact bump_forall P rest nx ny w (fun d hd => hm d (by simp [hd])) hn c hrest

theorem bump_keys_nodup (m : List MathUtils.Cand) (nx ny : Int) (w : ℚ)
    (h : (m.map (fun c => (c.x, c.y))).Nodup) :
    ((MathUtils.bump m nx ny w).map (fun c => (c.x, c.y))).Nodup := by
  by_cases hm : (nx, ny) ∈ m.map (fun c => (c.x, c.y))
  · rw [bump_keys_mem m nx ny w hm]
    exact h
  · rw [bump_keys_not_mem m nx ny w hm]
    simp [List.nodup_append, h, hm]

theorem allCells_mem {n : Nat} {c : Int × Int} :
    c ∈ MathUtils.allCells n ↔ 0 ≤ c.1 ∧ c.1 < (n : Int) ∧ 0 ≤ c.2 ∧ c.2 < (n : Int) := by
  obtain ⟨a, d⟩ := c
  unfold MathUtils.allCells
  rw [List.mem_flatMap]
  constructor
  · rintro ⟨y1, hy1, hmem⟩
    rw [List.mem_range] at hy1
    rw [List.mem_map] at hmem
    obtain ⟨x1, hx1, heq⟩ := hmem
    rw [List.mem_range] at hx1
    rw [Prod.mk.injEq] at heq
    obtain ⟨h1, h2⟩ := heq
    refine ⟨by omega, by omega, by omega, by omega⟩
  · rintro ⟨ha0, han, hd0, hdn⟩
    refine ⟨d.toNat, ?_, ?_⟩
    · rw [List.mem_range]
      omega
    · rw [List.mem_map]
      refine ⟨a.toNat, ?_, ?_⟩
      · rw [List.mem_range]
        omega
      · rw [Prod.mk.injEq]
        constructor <;> omega

theorem squareOffsets_mem {r : Nat} {o : Int × Int} :
    o ∈ MathUtils.squareOffsets r ↔
      -(r : Int) ≤ o.1 ∧ o.1 ≤ (r : Int) ∧ -(r : Int) ≤ o.2 ∧ o.2 ≤ (r : Int) := by
  obtain ⟨a, d⟩ := o
  unfold MathUtils.squareOffsets
  rw [List.mem_flatMap]
  constructor
  · rintro ⟨i, hi, hmem⟩
    rw [List.mem_range] at hi
    rw [List.mem_map] at hmem
    obtain ⟨j, hj, heq⟩ := hmem
    rw [List.mem_range] at hj
    rw [Prod.mk.injEq] at heq
    obtain ⟨h1, h2⟩ := heq
    refine ⟨by omega, by omega, by omega, by omega⟩
  · rintro ⟨ha0, har, hd0, hdr⟩
    refine ⟨(a + r).toNat, ?_, ?_⟩
    · rw [List.mem_range]
      omega
    · rw [List.mem_map]
      refine ⟨(d + r).toNat, ?_, ?_⟩
      · rw [List.mem_range]
        omega
      · rw [Prod.mk.injEq]
        constructor <;> omega

/-- Invariant preservation along a left fold, with the invariant given
explicitly. -/
theorem foldl_inv {α β : Type} (P : β → Prop) (f : β → α → β) :
    ∀ (l : List α) (b0 : β), P b0 → (∀ m a, P m → a ∈ l → P (f m a)) →
      P (List.foldl f b0 l)
  | [], b0, h0, _ => h0
  | a :: l, b0, h0, hstep => by
    rw [List.foldl_cons]
    exact foldl_inv P f l (f b0 a) (hstep b0 a h0 (by simp))
      (fun m c hm hc => hstep m c hm (by simp [hc]))

/-- Soundness + key uniqueness of the candidate map: every accumulated entry
is an empty in-bounds cell within the square radius of some occupied cell, and
no two entries share a position. -/
theorem buildCandidates_inv (b : Board) (r : Nat) :
    (∀ c ∈ MathUtils.buildCandidates b r,
      inBounds c.x c.y b.length = true ∧ getCell b c.x c.y = 0 ∧
        ∃ s : Int × Int, inBounds s.1 s.2 b.length = true ∧ getCell b s.1 s.2 ≠ 0 ∧
          |c.x - s.1| ≤ (r : Int) ∧ |c.y - s.2| ≤ (r : Int)) ∧
    ((MathUtils.buildCandidates b r).map (fun c => (c.x, c.y))).Nodup := by
  unfold MathUtils.buildCandidates
  dsimp only
  refine foldl_inv
    (fun (m : List MathUtils.Cand) => (∀ c ∈ m,
        inBounds c.x c.y b.length = true ∧ getCell b c.x c.y = 0 ∧
          ∃ s : Int × Int, inBounds s.1 s.2 b.length = true ∧ getCell b s.1 s.2 ≠ 0 ∧
            |c.x - s.1| ≤ (r : Int) ∧ |c.y - s.2| ≤ (r : Int)) ∧
      (m.map (fun c => (c.x, c.y))).Nodup)
    _ _ _ ?_ ?_
  · exact ⟨by simp, by simp⟩
  intro m cell hm hcellmem
  by_cases hocc : getCell b cell.1 cell.2 ≠ 0
  · rw [if_pos hocc]
    refine foldl_inv
      (fun (m : List MathUtils.Cand) => (∀ c ∈ m,
          inBounds c.x c.y b.length = true ∧ getCell b c.x c.y = 0 ∧
            ∃ s : Int × Int, inBounds s.1 s.2 b.length = true ∧ getCell b s.1 s.2 ≠ 0 ∧
              |c.x - s.1| ≤ (r : Int) ∧ |c.y - s.2| ≤ (r : Int)) ∧
        (m.map (fun c => (c.x, c.y))).Nodup)
      _ _ _ hm ?_
    intro m2 off hm2 hoffmem
    by_cases hcond :
        (inBounds (cell.1 + off.1) (cell.2 + off.2) b.length &&
          (getCell b (cell.1 + off.1) (cell.2 + off.2) == 0)) = true
    · rw [if_pos hcond]
      rw [Bool.and_eq_true, beq_iff_eq] at hcond
      obtain ⟨hcb, hcg⟩ := hcond
      constructor
      · refine bump_forall
          (fun xx yy => inBounds xx yy b.length = true ∧ getCell b xx yy = 0 ∧
            ∃ s : Int × Int, inBounds s.1 s.2 b.length = true ∧ getCell b s.1 s.2 ≠ 0 ∧
              |xx - s.1| ≤ (r : Int) ∧ |yy - s.2| ≤ (r : Int))
          m2 _ _ _ hm2.1 ?_
        refine ⟨hcb, hcg, cell, ?_, hocc, ?_, ?_⟩
        · obtain ⟨h1, h2, h3, h4⟩ := allCells_mem.mp hcellmem
          exact inBounds_iff.mpr ⟨h1, h3, h2, h4⟩
        · obtain ⟨h1, h2, h3, h4⟩ := squareOffsets_mem.mp hoffmem
          rw [add_sub_cancel_left]
          rw [abs_le]
          exact ⟨h1, h2⟩
        · obtain ⟨h1, h2, h3, h4⟩ := squareOffsets_mem.mp hoffmem
          rw [add_sub_cancel_left]
          rw [abs_le]
          exact ⟨h3, h4⟩
      · exact bump_keys_nodup m2 _ _ _ hm2.2
    · rw [if_neg hcond]
      exact hm2
  · rw [if_neg hocc]
    exact hm

/-- C7: on a board with no stones the generator returns exactly the single
board-centre candidate with the fixed weight `1000`; on a non-empty board it
returns only empty in-bounds cells within the square radius of at least one
occupied cell, each position at most once, sorted by descending accumulated
weight. -/
theorem candidates_spec (b : Board) (r : Nat) :
    (MathUtils.hasAnyPiece b = false →
      MathUtils.generateCandidateMoves b r =
        [⟨((b.length / 2 : Nat) : Int), ((b.length / 2 : Nat) : Int), 1000⟩]) ∧
    (MathUtils.hasAnyPiece b = true →
      (∀ c ∈ MathUtils.generateCandidateMoves b r,
        inBounds c.x c.y b.length = true ∧ getCell b c.x c.y = 0 ∧
          ∃ s : Int × Int, inBounds s.1 s.2 b.length = true ∧ getCell b s.1 s.2 ≠ 0 ∧
            |c.x - s.1| ≤ (r : Int) ∧ |c.y - s.2| ≤ (r : Int)) ∧
      ((MathUtils.generateCandidateMoves b r).map (fun c => (c.x, c.y))).Nodup ∧
      List.Sorted MathUtils.candOrder (MathUtils.generateCandidateMoves b r)) := by
  constructor
  · intro h
    unfold MathUtils.generateCandidateMoves
    rw [if_neg (by simp [h])]
  · intro h
    unfold MathUtils.generateCandidateMoves
    rw [if_pos h]
    have hperm := List.perm_insertionSort MathUtils.candOrder (MathUtils.buildCandidates b r)
    refine ⟨?_, ?_, List.sorted_insertionSort MathUtils.candOrder _⟩
    · intro c hc
      exact (buildCandidates_inv b r).1 c (hperm.mem_iff.mp hc)
    · exact ((hperm.map (fun c => (c.x, c.y))).nodup_iff).mpr (buildCandidates_inv b r).2

/-- Witness for C7 at a concrete input: the empty 3×3 board yields exactly the
centre candidate. -/
theorem candidates_spec_witness :
    MathUtils.hasAnyPiece (mkBoard 3 (fun _ _ => 0)) = false ∧
    MathUtils.generateCandidateMoves (mkBoard 3 (fun _ _ => 0)) 2 = [⟨1, 1, 1000⟩] :=
  ⟨by decide, (candidates_spec (mkBoard 3 (fun _ _ => 0)) 2).1 (by decide)⟩

/-! ## C3: place → inspect → restore leaves the board unchanged -/

/-- Every cell the candidate generator proposes is empty on the board it was
generated from (the centre fallback included). -/
theorem generateCandidateMoves_empty_cell (b : Board) (r : Nat) :
    ∀ c ∈ MathUtils.generateCandidateMoves b r, getCell b c.x c.y = 0 := by
  intro c hc
  by_cases h : MathUtils.hasAnyPiece b = true
  · unfold MathUtils.generateCandidateMoves at hc
    rw [if_pos h] at hc
    exact ((buildCandidates_inv b r).1 c
      ((List.perm_insertionSort MathUtils.candOrder _).mem_iff.mp hc)).2.1
  · unfold MathUtils.generateCandidateMoves at hc
    rw [if_neg h] at hc
    rcases List.mem_singleton.mp hc with rfl
    by_cases hn : b.length = 0
    · unfold getCell
      rw [if_neg (by rw [hn]; simp [inBounds])]
    · have hmid : b.length / 2 < b.length := Nat.div_lt_self (Nat.pos_of_ne_zero hn) (by norm_num)
      unfold MathUtils.hasAnyPiece at h
      rw [List.any_eq_true] at h
      push_neg at h
      have hmem : (((b.length / 2 : Nat) : Int), ((b.length / 2 : Nat) : Int)) ∈
          MathUtils.allCells b.length := by
        rw [allCells_mem]
        dsimp only
        exact ⟨by positivity, by exact_mod_cast hmid, by positivity, by exact_mod_cast hmid⟩
      have := h _ hmem
      simpa using this

theorem detectForbiddenRun_snd (b : Board) (s : Settings) (x y : Int) (p : Nat) :
    (RuleEngine.detectForbiddenRun b s x y p).2 = b := by
  unfold RuleEngine.detectForbiddenRun
  by_cases h1 : p ≠ 1 ∨ s.forbiddenRules = false
  · rw [if_pos h1]
  · rw [if_neg h1]
    by_cases h2 : getCell b x y ≠ 0
    · rw [if_pos h2]
    · rw [if_neg h2]
      dsimp only
      exact setCell_setCell_restore b x y p (of_not_not h2)

/-- The minimax recursion restores the shared board buffer: every candidate's
stone is placed and then cleared again, at every ply, so the board the search
returns is the board it was given. -/
theorem minimax_board_restore (maxCands player : Nat) :
    ∀ (fuel : Nat) (b : Board) (alpha beta : AIEngine.XQ) (isMax : Bool),
      (AIEngine.minimaxRun maxCands player fuel b alpha beta isMax).2 = b
  | 0, _, _, _, _ => rfl
  | Nat.succ fuel, b, alpha, beta, isMax => by
    unfold AIEngine.minimaxRun
    dsimp only
    by_cases hemp : ((MathUtils.generateCandidateMoves b 2).take maxCands).isEmpty = true
    · rw [if_pos hemp]
    · rw [if_neg hemp]
      have hcand : ∀ c ∈ (MathUtils.generateCandidateMoves b 2).take maxCands,
          getCell b c.x c.y = 0 :=
        fun c hc => generateCandidateMoves_empty_cell b 2 c (List.take_subset _ _ hc)
      by_cases hmax : isMax = true
      · rw [if_pos hmax]
        dsimp only
        refine foldl_inv
          (fun (st : AIEngine.XQ × AIEngine.XQ × Board × Bool) => st.2.2.1 = b) _ _ _ rfl ?_
        intro st c hst hc
        dsimp only
        by_cases hstop : st.2.2.2 = true
        · rw [if_pos hstop]
          exact hst
        · rw [if_neg hstop]
          dsimp only
          rw [minimax_board_restore maxCands player fuel _ _ _ _, hst]
          exact setCell_setCell_restore b c.x c.y player (hcand c hc)
      · rw [if_neg hmax]
        dsimp only
        refine foldl_inv
          (fun (st : AIEngine.XQ × AIEngine.XQ × Board × Bool) => st.2.2.1 = b) _ _ _ rfl ?_
        intro st c hst hc
        dsimp only
        by_cases hstop : st.2.2.2 = true
        · rw [if_pos hstop]
          exact hst
        · rw [if_neg hstop]
          dsimp only
          rw [minimax_board_restore maxCands player fuel _ _ _ _, hst]
          exact setCell_setCell_restore b c.x c.y (MathUtils.getOpponent player) (hcand c hc)

/-- C3: every core call leaves the caller's board unchanged — `detectForbidden`
restores the hypothetically placed stone on every exit path, a second call on
the board it leaves behind returns the identical result pair, `checkWin` (which
never writes) computes the same answer on the board a detect call leaves as on
the original, and the search recursion restores the shared board at every
node for every fuel, alpha, beta, and side. -/
theorem core_board_restoration (b : Board) (s : Settings) (x y : Int) (p : Nat)
    (maxCands player fuel : Nat) (alpha beta : AIEngine.XQ) (isMax : Bool) :
    (RuleEngine.detectForbiddenRun b s x y p).2 = b ∧
    RuleEngine.detectForbiddenRun (RuleEngine.detectForbiddenRun b s x y p).2 s x y p =
      RuleEngine.detectForbiddenRun b s x y p ∧
    RuleEngine.checkWin (RuleEngine.detectForbiddenRun b s x y p).2 x y p =
      RuleEngine.checkWin b x y p ∧
    (AIEngine.minimaxRun maxCands player fuel b alpha beta isMax).2 = b := by
  have h := detectForbiddenRun_snd b s x y p
  exact ⟨h, by rw [h], by rw [h], minimax_board_restore maxCands player fuel b alpha beta isMax⟩

end GoFive
